import Mathlib

/-!
Verification of the Map8x32 server core: the store actor (`command_processor`)
and the per-connection frame handling (`handle_connection`) from
`src/server/src/main.rs`, embedded shallowly.

The store `DashMap<u8, Vec<u32>>` is embedded as a function from the closed
key domain `Fin 256` to `Option (List Nat)` (absent key = `none`), and the
actor's single-threaded apply step as a pure function `applyCommand`.
-/

namespace Map8x32

abbrev Key := Fin 256
abbrev Value := Nat
abbrev Store := Key → Option (List Value)

/-- The store at process start: every key absent. -/
def emptyStore : Store := fun _ => none

/-- Opcode constants from the source. -/
def OP_SET : Nat := 1
def OP_GET : Nat := 2
def OP_DELETE_BY_KEY : Nat := 3
def OP_DELETE_ALL : Nat := 4
def OP_LIST_ALL : Nat := 5

/-- Status byte constants from the source. -/
def STATUS_NOT_FOUND : Nat := 0
def STATUS_OK : Nat := 1
def STATUS_BAD_REQUEST : Nat := 2

/-- The `Command` enum from the source, without the reply channels (the reply
becomes the function result of the apply step). -/
inductive Command where
  | set (key : Key) (value : Value)
  | get (key : Key)
  | deleteByKey (key : Key)
  | deleteAll
  | listAll
  deriving DecidableEq

/-- The `GetResponse` enum from the source. -/
inductive GetResponse where
  | found (values : List Value)
  | notFound
  deriving DecidableEq

/-- The `ListAllResponse` struct from the source. -/
structure ListAllResponse where
  entries : List (Key × List Value)
  deriving DecidableEq

/-- What the actor sends back on a command's oneshot channel: a status byte
for Set / DeleteByKey / DeleteAll, a `GetResponse` for Get, and a
`ListAllResponse` for ListAll. -/
inductive Reply where
  | status (st : Nat)
  | get (r : GetResponse)
  | listAll (r : ListAllResponse)
  deriving DecidableEq

/-- The entry collection of the `ListAll` arm: `storage.iter()` collecting
`(key, values.clone())` pairs.  `DashMap` iteration order is unspecified; we
use the canonical enumeration of the closed key domain. -/
def listAllEntries (storage : Store) : List (Key × List Value) :=
  (List.finRange 256).filterMap (fun k => (storage k).map (fun vs => (k, vs)))

/-- One iteration of the `command_processor` loop body: apply a command to the
store, returning the new store and the reply sent on the oneshot channel.
- Set: `storage.entry(key).or_insert_with(Vec::new).push(value)`, reply OK.
- Get: clone of the value vector if present, else NotFound; store untouched.
- DeleteByKey: `storage.remove(&key)`, reply OK if it was present else
  NOT_FOUND.
- DeleteAll: `storage.clear()`, reply OK.
- ListAll: collect all entries, store untouched. -/
def applyCommand (storage : Store) : Command → Store × Reply
  | .set key value =>
      (Function.update storage key (some (((storage key).getD []) ++ [value])),
       .status STATUS_OK)
  | .get key =>
      (storage,
       match storage key with
       | some values => .get (.found values)
       | none => .get .notFound)
  | .deleteByKey key =>
      match storage key with
      | some _ => (Function.update storage key none, .status STATUS_OK)
      | none => (storage, .status STATUS_NOT_FOUND)
  | .deleteAll => (emptyStore, .status STATUS_OK)
  | .listAll => (storage, .listAll ⟨listAllEntries storage⟩)

/-- Fold of the actor loop over a list of commands (replies discarded). -/
def applyCommands (storage : Store) : List Command → Store
  | [] => storage
  | c :: cs => applyCommands (applyCommand storage c).1 cs

/-- A 6-byte request frame: `[opcode:1][key:1][value:4 little-endian]`. -/
structure Frame where
  opcode : Fin 256
  key : Fin 256
  b2 : Fin 256
  b3 : Fin 256
  b4 : Fin 256
  b5 : Fin 256
  deriving DecidableEq

/-- `u32::from_le_bytes([buf[2], buf[3], buf[4], buf[5]])`. -/
def fromLeBytes (b2 b3 b4 b5 : Fin 256) : Nat :=
  b2.val + b3.val * 256 + b4.val * 256 ^ 2 + b5.val * 256 ^ 3

/-- Little-endian byte encoding of a 32-bit value (`write_u32_le`). -/
def u32le (v : Nat) : List Nat :=
  [v % 256, v / 256 % 256, v / 256 ^ 2 % 256, v / 256 ^ 3 % 256]

/-- Bytes written for a GET reply: `[1][count:u32-le][values]` when found,
`[0]` when not found. -/
def encodeGet : GetResponse → List Nat
  | .found values => STATUS_OK :: (u32le values.length ++ (values.map u32le).flatten)
  | .notFound => [STATUS_NOT_FOUND]

/-- Bytes written for one LIST_ALL entry: `[key:1][count:u32-le][values]`. -/
def encodeEntry (e : Key × List Value) : List Nat :=
  e.1.val :: (u32le e.2.length ++ (e.2.map u32le).flatten)

/-- Bytes written for a LIST_ALL reply: `[1][key_count:u32-le]` then each
entry in sequence. -/
def encodeListAll (r : ListAllResponse) : List Nat :=
  STATUS_OK :: (u32le r.entries.length ++ (r.entries.map encodeEntry).flatten)

/-- Bytes written to the socket for each reply variant, exactly as
`handle_connection` writes them per opcode. -/
def encodeReply : Reply → List Nat
  | .status st => [st]
  | .get r => encodeGet r
  | .listAll r => encodeListAll r

/-- One iteration of the `handle_connection` loop on a successfully read
6-byte frame (I/O assumed to succeed): decode opcode / key / value, dispatch
the command to the actor, encode the reply; an unrecognized opcode writes the
single BAD_REQUEST status byte and sends nothing to the actor. -/
def handleFrame (storage : Store) (f : Frame) : Store × List Nat :=
  let op := f.opcode.val
  let key := f.key
  let value := fromLeBytes f.b2 f.b3 f.b4 f.b5
  if op = OP_SET then
    let r := applyCommand storage (.set key value)
    (r.1, encodeReply r.2)
  else if op = OP_GET then
    let r := applyCommand storage (.get key)
    (r.1, encodeReply r.2)
  else if op = OP_DELETE_BY_KEY then
    let r := applyCommand storage (.deleteByKey key)
    (r.1, encodeReply r.2)
  else if op = OP_DELETE_ALL then
    let r := applyCommand storage .deleteAll
    (r.1, encodeReply r.2)
  else if op = OP_LIST_ALL then
    let r := applyCommand storage .listAll
    (r.1, encodeReply r.2)
  else
    (storage, [STATUS_BAD_REQUEST])

/-- The connection loop over successive frames on one connection: the handler
awaits each reply before reading the next frame; collects the response bytes
of each request in order. -/
def runFrames (storage : Store) : List Frame → Store × List (List Nat)
  | [] => (storage, [])
  | f :: fs =>
      let r := handleFrame storage f
      let rest := runFrames r.1 fs
      (rest.1, r.2 :: rest.2)

/-- Number of values a key contributes to the store (0 when absent). -/
def keyLen (s : Store) (k : Key) : Nat := ((s k).getD []).length

/-- Total value count a ListAll reports, summed over all returned entries. -/
def totalCount (s : Store) : Nat :=
  ((listAllEntries s).map (fun e => e.2.length)).sum

/-- Store well-formedness: every present key has a non-empty value sequence. -/
def WF (s : Store) : Prop := ∀ k vs, s k = some vs → vs ≠ []

/-- A concrete store used by witnesses: key 5 holds the single value 100. -/
def demoStore : Store := Function.update emptyStore 5 (some [100])

/-- C1: for every store state, key `k` and value `v`, `Set(k, v)` appends `v`
to `k`'s value sequence (the old sequence, or empty if `k` was absent, with
`v` at the end) and the reply status is always OK (1). -/
theorem set_appends_and_replies_ok (s : Store) (k : Key) (v : Value) :
    (applyCommand s (.set k v)).1 k = some (((s k).getD []) ++ [v]) ∧
    (applyCommand s (.set k v)).2 = .status STATUS_OK := by
  constructor
  · simp [applyCommand, Function.update]
  · rfl

/-- C2: `Get(k)` leaves the store completely unchanged, replies `Found` with
the full value sequence when `k` is present, and replies `NotFound` exactly
when `k` is absent. -/
theorem get_semantics (s : Store) (k : Key) :
    (applyCommand s (.get k)).1 = s ∧
    (∀ vs, s k = some vs → (applyCommand s (.get k)).2 = .get (.found vs)) ∧
    ((applyCommand s (.get k)).2 = .get .notFound ↔ s k = none) := by
  refine ⟨rfl, ?_, ?_⟩
  · intro vs h
    simp [applyCommand, h]
  · cases h : s k <;> simp [applyCommand, h]

/-- C2 witness: evaluating the Get semantics on a concrete store carrying
key 5. -/
theorem get_semantics_witness :
    (applyCommand demoStore (.get 5)).1 = demoStore ∧
    demoStore 5 = some [100] ∧
    (applyCommand demoStore (.get 5)).2 = .get (.found [100]) ∧
    ((applyCommand demoStore (.get 7)).2 = .get .notFound ↔ demoStore 7 = none) :=
  ⟨(get_semantics demoStore 5).1, by decide,
   (get_semantics demoStore 5).2.1 [100] (by decide),
   (get_semantics demoStore 7).2.2⟩

/-- C3: `DeleteByKey(k)` removes `k`'s entry entirely and replies OK when `k`
is present, and replies NOT_FOUND leaving the store unchanged when `k` is
absent. -/
theorem deleteByKey_semantics (s : Store) (k : Key) :
    (∀ vs, s k = some vs →
       (applyCommand s (.deleteByKey k)).1 = Function.update s k none ∧
       (applyCommand s (.deleteByKey k)).1 k = none ∧
       (applyCommand s (.deleteByKey k)).2 = .status STATUS_OK) ∧
    (s k = none →
       (applyCommand s (.deleteByKey k)).1 = s ∧
       (applyCommand s (.deleteByKey k)).2 = .status STATUS_NOT_FOUND) := by
  constructor
  · intro vs h
    refine ⟨?_, ?_, ?_⟩ <;> simp [applyCommand, h, Function.update]
  · intro h
    constructor <;> simp [applyCommand, h]

/-- C3 witness: deleting present key 5 and absent key 7 on a concrete
store. -/
theorem deleteByKey_semantics_witness :
    (demoStore 5 = some [100] ∧
       (applyCommand demoStore (.deleteByKey 5)).1 5 = none ∧
       (applyCommand demoStore (.deleteByKey 5)).2 = .status STATUS_OK) ∧
    (demoStore 7 = none ∧
       (applyCommand demoStore (.deleteByKey 7)).1 = demoStore ∧
       (applyCommand demoStore (.deleteByKey 7)).2 = .status STATUS_NOT_FOUND) :=
  ⟨⟨by decide, ((deleteByKey_semantics demoStore 5).1 [100] (by decide)).2.1,
    ((deleteByKey_semantics demoStore 5).1 [100] (by decide)).2.2⟩,
   ⟨by decide, ((deleteByKey_semantics demoStore 7).2 (by decide)).1,
    ((deleteByKey_semantics demoStore 7).2 (by decide)).2⟩⟩

/-- C5: `Set(k, v)` followed by `Get(k)` yields a Found sequence whose last
element is `v` and whose length is one more than `k`'s sequence length before
the Set (length 0 when `k` was absent). -/
theorem set_then_get (s : Store) (k : Key) (v : Value) :
    ∃ vs, (applyCommand (applyCommand s (.set k v)).1 (.get k)).2
        = .get (.found vs) ∧
      vs.getLast? = some v ∧
      vs.length = ((s k).getD []).length + 1 := by
  refine ⟨((s k).getD []) ++ [v], ?_, ?_, ?_⟩
  · simp [applyCommand, Function.update]
  · simp
  · simp

/-- C10: a `Set(k, v)` or `DeleteByKey(k)` leaves every other key's value
sequence (including its presence or absence) exactly unchanged. -/
theorem frame_other_keys_unchanged (s : Store) (k k' : Key) (v : Value)
    (h : k' ≠ k) :
    (applyCommand s (.set k v)).1 k' = s k' ∧
    (applyCommand s (.deleteByKey k)).1 k' = s k' := by
  constructor
  · simp [applyCommand, Function.update, h]
  · cases hk : s k <;> simp [applyCommand, hk, Function.update, h]

/-- C10 witness: key 7 is untouched by a Set and a DeleteByKey on key 5. -/
theorem frame_other_keys_unchanged_witness :
    (7 : Key) ≠ 5 ∧
    (applyCommand demoStore (.set 5 42)).1 7 = demoStore 7 ∧
    (applyCommand demoStore (.deleteByKey 5)).1 7 = demoStore 7 :=
  ⟨by decide, (frame_other_keys_unchanged demoStore 5 7 42 (by decide)).1,
   (frame_other_keys_unchanged demoStore 5 7 42 (by decide)).2⟩

/-- The ListAll entry collection on the empty store is empty. -/
lemma listAllEntries_empty : listAllEntries emptyStore = [] := by
  simp [listAllEntries, emptyStore]

/-- C4: `DeleteAll` always replies OK and leaves the store empty; it is
idempotent (on the already-empty store it still replies OK and the store
stays empty), and a `ListAll` on the resulting state returns zero entries. -/
theorem deleteAll_semantics (s : Store) :
    applyCommand s .deleteAll = (emptyStore, .status STATUS_OK) ∧
    applyCommand emptyStore .deleteAll = (emptyStore, .status STATUS_OK) ∧
    (applyCommand (applyCommand s .deleteAll).1 .listAll).2
      = .listAll ⟨[]⟩ := by
  refine ⟨rfl, rfl, ?_⟩
  simp [applyCommand, listAllEntries_empty]

/-- C7: a 6-byte frame whose opcode is outside {1,2,3,4,5} gets the single
BAD_REQUEST status byte [2], the store is unchanged (no command is sent to
the actor), and the connection keeps processing the remaining frames. -/
theorem unknown_opcode_bad_request (s : Store) (f : Frame) (fs : List Frame)
    (h : f.opcode.val ∉ ([1, 2, 3, 4, 5] : List Nat)) :
    handleFrame s f = (s, [STATUS_BAD_REQUEST]) ∧
    runFrames s (f :: fs)
      = ((runFrames s fs).1, [STATUS_BAD_REQUEST] :: (runFrames s fs).2) := by
  simp only [List.mem_cons, List.not_mem_nil, or_false, not_or] at h
  obtain ⟨h1, h2, h3, h4, h5⟩ := h
  have hb : handleFrame s f = (s, [STATUS_BAD_REQUEST]) := by
    simp [handleFrame, OP_SET, OP_GET, OP_DELETE_BY_KEY, OP_DELETE_ALL,
      OP_LIST_ALL, h1, h2, h3, h4, h5]
  exact ⟨hb, by simp [runFrames, hb]⟩

/-- C7 witness: opcode 9 on the empty store. -/
theorem unknown_opcode_bad_request_witness :
    ((Frame.mk 9 0 0 0 0 0).opcode.val ∉ ([1, 2, 3, 4, 5] : List Nat)) ∧
    handleFrame emptyStore (Frame.mk 9 0 0 0 0 0)
      = (emptyStore, [STATUS_BAD_REQUEST]) ∧
    runFrames emptyStore [Frame.mk 9 0 0 0 0 0]
      = ((runFrames emptyStore []).1,
         [STATUS_BAD_REQUEST] :: (runFrames emptyStore []).2) :=
  ⟨by decide,
   (unknown_opcode_bad_request emptyStore (Frame.mk 9 0 0 0 0 0) []
     (by decide)).1,
   (unknown_opcode_bad_request emptyStore (Frame.mk 9 0 0 0 0 0) []
     (by decide)).2⟩

/-- C6: the encoded GET response is `[1] ++ count(u32-le) ++ values(u32-le)`
when the key is present and `[0]` when absent; on a fresh store SET(5,100)
then GET(5) produces responses `[1]` then `[1,1,0,0,0,100,0,0,0]`. -/
theorem get_wire_format :
    (∀ (s : Store) (f : Frame), f.opcode.val = OP_GET →
       (∀ vs, s f.key = some vs →
          (handleFrame s f).2
            = STATUS_OK :: (u32le vs.length ++ (vs.map u32le).flatten)) ∧
       (s f.key = none → (handleFrame s f).2 = [STATUS_NOT_FOUND])) ∧
    (runFrames emptyStore
        [Frame.mk 1 5 100 0 0 0, Frame.mk 2 5 0 0 0 0]).2
      = [[1], [1, 1, 0, 0, 0, 100, 0, 0, 0]] := by
  constructor
  · intro s f hop
    constructor
    · intro vs hvs
      simp [handleFrame, hop, OP_SET, OP_GET, applyCommand, hvs,
        encodeReply, encodeGet]
    · intro hvs
      simp [handleFrame, hop, OP_SET, OP_GET, applyCommand, hvs,
        encodeReply, encodeGet]
  · decide

/-- C6 witness: evaluating the GET wire format on a concrete present and a
concrete absent key. -/
theorem get_wire_format_witness :
    (Frame.mk 2 5 0 0 0 0).opcode.val = OP_GET ∧
    demoStore (Frame.mk 2 5 0 0 0 0).key = some [100] ∧
    (handleFrame demoStore (Frame.mk 2 5 0 0 0 0)).2
      = STATUS_OK
          :: (u32le (List.length [100]) ++ (([100] : List Value).map u32le).flatten) ∧
    emptyStore (Frame.mk 2 5 0 0 0 0).key = none ∧
    (handleFrame emptyStore (Frame.mk 2 5 0 0 0 0)).2 = [STATUS_NOT_FOUND] :=
  ⟨by decide, by decide,
   (get_wire_format.1 demoStore (Frame.mk 2 5 0 0 0 0) (by decide)).1
     [100] (by decide),
   by decide,
   (get_wire_format.1 emptyStore (Frame.mk 2 5 0 0 0 0) (by decide)).2
     (by decide)⟩

/-- One actor step preserves well-formedness of the store. -/
lemma WF_applyCommand {s : Store} (hs : WF s) (c : Command) :
    WF (applyCommand s c).1 := by
  cases c with
  | set k v =>
      intro k' vs h
      by_cases hk : k' = k
      · subst hk
        simp [applyCommand, Function.update] at h
        simp [← h]
      · simp [applyCommand, Function.update, hk] at h
        exact hs k' vs h
  | get k => exact hs
  | deleteByKey k =>
      cases hsk : s k with
      | none =>
          intro k' vs h
          simp [applyCommand, hsk] at h
          exact hs k' vs h
      | some ws =>
          intro k' vs h
          by_cases hk : k' = k
          · subst hk
            simp [applyCommand, hsk, Function.update] at h
          · simp [applyCommand, hsk, Function.update, hk] at h
            exact hs k' vs h
  | deleteAll =>
      intro k vs h
      simp [applyCommand, emptyStore] at h
  | listAll => exact hs

/-- Every store reachable from the empty store is well-formed. -/
lemma WF_applyCommands (cmds : List Command) :
    ∀ s, WF s → WF (applyCommands s cmds) := by
  induction cmds with
  | nil => intro s hs; exact hs
  | cons c cs ih =>
      intro s hs
      exact ih _ (WF_applyCommand hs c)

/-- Any change to one key's entry is an append from `Set` on that very key,
or its complete removal by `DeleteByKey` on that key or by `DeleteAll`. -/
lemma applyCommand_change (s : Store) (c : Command) (k : Key)
    (h : (applyCommand s c).1 k ≠ s k) :
    (∃ v, c = .set k v ∧
        (applyCommand s c).1 k = some (((s k).getD []) ++ [v])) ∨
    ((c = .deleteByKey k ∨ c = .deleteAll) ∧ (applyCommand s c).1 k = none) := by
  cases c with
  | set k' v =>
      by_cases hk : k = k'
      · subst hk
        exact Or.inl ⟨v, rfl, by simp [applyCommand, Function.update]⟩
      · exact absurd (by simp [applyCommand, Function.update, hk]) h
  | get k' => exact absurd rfl h
  | deleteByKey k' =>
      cases hsk : s k' with
      | none => exact absurd (by simp [applyCommand, hsk]) h
      | some ws =>
          by_cases hk : k = k'
          · subst hk
            exact Or.inr ⟨Or.inl rfl, by simp [applyCommand, hsk, Function.update]⟩
          · exact absurd (by simp [applyCommand, hsk, Function.update, hk]) h
  | deleteAll => exact Or.inr ⟨Or.inr rfl, rfl⟩
  | listAll => exact absurd rfl h

/-- C8: from the initial empty store every reachable state maps present keys
to non-empty sequences, and the only ways a key's entry changes are an append
by `Set` on that key or whole-key removal by `DeleteByKey` / `DeleteAll`. -/
theorem store_invariants :
    (∀ cmds : List Command, WF (applyCommands emptyStore cmds)) ∧
    (∀ (s : Store) (c : Command) (k : Key), (applyCommand s c).1 k ≠ s k →
       (∃ v, c = .set k v ∧
           (applyCommand s c).1 k = some (((s k).getD []) ++ [v])) ∨
       ((c = .deleteByKey k ∨ c = .deleteAll) ∧
           (applyCommand s c).1 k = none)) :=
  ⟨fun cmds => WF_applyCommands cmds emptyStore (fun _ _ h => by
      simp [emptyStore] at h),
   applyCommand_change⟩

/-- C8 witness: the change produced by `Set 0 7` on the empty store is the
append the invariant predicts, and the resulting store is well-formed. -/
theorem store_invariants_witness :
    ((applyCommand emptyStore (.set 0 7)).1 0 ≠ emptyStore 0) ∧
    ((∃ v, (Command.set 0 7) = .set 0 v ∧
        (applyCommand emptyStore (.set 0 7)).1 0
          = some (((emptyStore (0 : Key)).getD []) ++ [v])) ∨
     (((Command.set 0 7) = .deleteByKey 0 ∨ (Command.set 0 7) = .deleteAll) ∧
        (applyCommand emptyStore (.set 0 7)).1 0 = none)) ∧
    WF (applyCommands emptyStore [.set 0 7]) :=
  ⟨by decide,
   store_invariants.2 emptyStore (.set 0 7) 0 (by decide),
   store_invariants.1 [.set 0 7]⟩

/-- How many Set commands a single command contributes. -/
def cmdSets : Command → Nat
  | .set _ _ => 1
  | _ => 0

/-- How many stored values a single command removes from the given store:
a key deletion removes that key's whole sequence, DeleteAll removes
everything. -/
def cmdRemoved (s : Store) : Command → Nat
  | .deleteByKey k => keyLen s k
  | .deleteAll => totalCount s
  | _ => 0

/-- Number of Set commands in a trace. -/
def setsIn (cs : List Command) : Nat := (cs.map cmdSets).sum

/-- Values removed via key deletions along a trace starting at `s`. -/
def removedIn : Store → List Command → Nat
  | _, [] => 0
  | s, c :: cs => cmdRemoved s c + removedIn (applyCommand s c).1 cs

/-- Summing entry lengths of the ListAll collection over any key list equals
summing each key's contribution directly. -/
lemma listAllEntries_sum (s : Store) (l : List Key) :
    ((l.filterMap (fun k => (s k).map (fun vs => (k, vs)))).map
        (fun e => e.2.length)).sum
      = (l.map (fun k => keyLen s k)).sum := by
  induction l with
  | nil => rfl
  | cons k l ih =>
      cases h : s k <;>
        simp [List.filterMap_cons, h, ih, keyLen]

/-- The ListAll total equals the sum over the whole key domain. -/
lemma totalCount_eq_sum (s : Store) :
    totalCount s = ∑ k : Key, keyLen s k := by
  rw [Fin.sum_univ_def]
  exact listAllEntries_sum s (List.finRange 256)

/-- Updating one key changes the domain sum by that key's length change. -/
lemma sum_keyLen_update (s : Store) (a : Key) (o : Option (List Value)) :
    (∑ k : Key, keyLen (Function.update s a o) k) + keyLen s a
      = (∑ k : Key, keyLen s k) + (o.getD []).length := by
  have hfun : ∀ k : Key, keyLen (Function.update s a o) k
      = Function.update (keyLen s) a ((o.getD []).length) k := by
    intro k
    by_cases hk : k = a
    · subst hk; simp [keyLen, Function.update]
    · simp [keyLen, Function.update, hk]
  have hrw : (∑ k : Key, keyLen (Function.update s a o) k)
      = ∑ k : Key, Function.update (keyLen s) a ((o.getD []).length) k :=
    Finset.sum_congr rfl (fun k _ => hfun k)
  rw [hrw, Finset.sum_update_of_mem (Finset.mem_univ a)]
  have h2 := Finset.add_sum_erase Finset.univ (keyLen s) (Finset.mem_univ a)
  rw [Finset.erase_eq] at h2
  omega

/-- The empty store reports a total value count of zero. -/
lemma totalCount_empty : totalCount emptyStore = 0 := by
  simp [totalCount, listAllEntries_empty]

/-- One actor step: new total plus values removed equals old total plus
values set. -/
lemma totalCount_applyCommand (s : Store) (c : Command) :
    totalCount (applyCommand s c).1 + cmdRemoved s c
      = totalCount s + cmdSets c := by
  cases c with
  | set k v =>
      have h := sum_keyLen_update s k (some (((s k).getD []) ++ [v]))
      simp only [Option.getD_some, List.length_append, List.length_singleton]
        at h
      rw [show (applyCommand s (.set k v)).1
            = Function.update s k (some (((s k).getD []) ++ [v])) from rfl,
        totalCount_eq_sum, totalCount_eq_sum]
      have hr : cmdRemoved s (.set k v) = 0 := rfl
      have hc : cmdSets (.set k v) = 1 := rfl
      have hk : keyLen s k = ((s k).getD []).length := rfl
      rw [hr, hc]
      omega
  | get k => rfl
  | deleteByKey k =>
      have hr : cmdRemoved s (.deleteByKey k) = keyLen s k := rfl
      have hc : cmdSets (.deleteByKey k) = 0 := rfl
      rw [hr, hc]
      cases hsk : s k with
      | none =>
          have hs1 : (applyCommand s (.deleteByKey k)).1 = s := by
            simp [applyCommand, hsk]
          have hk0 : keyLen s k = 0 := by simp [keyLen, hsk]
          rw [hs1, hk0]
      | some ws =>
          have h := sum_keyLen_update s k none
          rw [show (applyCommand s (.deleteByKey k)).1
                = Function.update s k none by simp [applyCommand, hsk],
            totalCount_eq_sum, totalCount_eq_sum]
          simp only [Option.getD_none, List.length_nil] at h
          omega
  | deleteAll =>
      have hr : cmdRemoved s .deleteAll = totalCount s := rfl
      have hc : cmdSets .deleteAll = 0 := rfl
      have hs1 : (applyCommand s .deleteAll).1 = emptyStore := rfl
      rw [hr, hc, hs1, totalCount_empty]
      omega
  | listAll => rfl

/-- Along any trace: final total plus everything removed equals initial total
plus everything set. -/
lemma totalCount_applyCommands (cs : List Command) :
    ∀ s, totalCount (applyCommands s cs) + removedIn s cs
      = totalCount s + setsIn cs := by
  induction cs with
  | nil => intro s; simp [applyCommands, removedIn, setsIn]
  | cons c cs ih =>
      intro s
      have h1 := totalCount_applyCommand s c
      have h2 := ih (applyCommand s c).1
      simp only [applyCommands, removedIn, setsIn, List.map_cons,
        List.sum_cons] at h2 ⊢
      omega

/-- C9: after any finite command trace from the empty store, the total value
count ListAll reports equals the number of Sets applied minus the values
removed via key deletions, and the removed count never exceeds the Set
count. -/
theorem listAll_count_conservation (cs : List Command) :
    totalCount (applyCommands emptyStore cs)
      = setsIn cs - removedIn emptyStore cs ∧
    removedIn emptyStore cs ≤ setsIn cs := by
  have h := totalCount_applyCommands cs emptyStore
  rw [totalCount_empty] at h
  omega

end Map8x32
